import Mathlib

/-!
Verification of the Budget Planner aggregation and entry-store logic
(`src/frontend/src/App.js`) against its specification.

Modelling conventions:
* Amounts are exact rationals (`ℚ`), standing for the numeric value
  `parseFloat(entry.amount)` that every aggregate consumes; JS `number`
  float drift is abstracted away, as the spec's numeric semantics demand
  decimal arithmetic.
* Dates are calendar triples (year, month 1-12, day); `date-fns`'s
  `isSameMonth` compares year and month only.
* The selected month (an HTML month input, `yyyy-MM`) is a year-month
  pair; the code compares entries against `parseISO(selectedMonth + '-01')`.
-/

/-- The `type` field of an entry: `'income'` or `'expense'`. -/
inductive EType where
  | income
  | expense
deriving DecidableEq

/-- A calendar date as produced by `parseISO` on a `yyyy-MM-dd` string:
year, month (1-12), day of month. -/
structure Dt where
  year : Int
  month : Nat
  day : Nat
deriving DecidableEq

/-- A ledger entry as stored in React state (`entries`).  `amount` is the
rational value of the stored two-decimal amount string. -/
structure Entry where
  id : String
  etype : EType
  amount : ℚ
  category : String
  description : String
  date : Dt
deriving DecidableEq

/-- A year-month value, the shape of the `selectedMonth` state
(`yyyy-MM` month-input string). -/
structure Ym where
  year : Int
  month : Nat
deriving DecidableEq

/-- `parseISO(selectedMonth + '-01')`: the first day of the selected month. -/
def Ym.firstDay (m : Ym) : Dt :=
  ⟨m.year, m.month, 1⟩

/-- `date-fns` `isSameMonth`: two dates fall in the same calendar month
iff their years and months agree (days ignored). -/
def isSameMonth (a b : Dt) : Bool :=
  a.year == b.year && a.month == b.month

/-- `entries.filter(e => e.type === 'income').reduce((sum, e) => sum + parseFloat(e.amount), 0)`
(App.js lines 52-54). -/
def totalIncome (entries : List Entry) : ℚ :=
  (entries.filter (fun e => e.etype == EType.income)).foldl
    (fun sum e => sum + e.amount) 0

/-- `entries.filter(e => e.type === 'expense').reduce((sum, e) => sum + parseFloat(e.amount), 0)`
(App.js lines 56-58). -/
def totalExpenses (entries : List Entry) : ℚ :=
  (entries.filter (fun e => e.etype == EType.expense)).foldl
    (fun sum e => sum + e.amount) 0

/-- `const balance = totalIncome - totalExpenses` (App.js line 60). -/
def balance (entries : List Entry) : ℚ :=
  totalIncome entries - totalExpenses entries

/-- `entries.filter(e => isSameMonth(parseISO(e.date), parseISO(selectedMonth + '-01')))`
(App.js lines 63-65). -/
def monthlyEntries (entries : List Entry) (sel : Ym) : List Entry :=
  entries.filter (fun e => isSameMonth e.date sel.firstDay)

/-- Monthly income total (App.js lines 67-69). -/
def monthlyIncome (entries : List Entry) (sel : Ym) : ℚ :=
  ((monthlyEntries entries sel).filter (fun e => e.etype == EType.income)).foldl
    (fun sum e => sum + e.amount) 0

/-- Monthly expense total (App.js lines 71-73). -/
def monthlyExpenses (entries : List Entry) (sel : Ym) : ℚ :=
  ((monthlyEntries entries sel).filter (fun e => e.etype == EType.expense)).foldl
    (fun sum e => sum + e.amount) 0

/-- One step of the JS accumulation
`acc[entry.category] = (acc[entry.category] || 0) + parseFloat(entry.amount)`:
a JS object keeps string keys in first-insertion order and updating an
existing key keeps its position, so the object is an association list in
which an existing key is updated in place and a new key is appended. -/
def insertAdd (acc : List (String × ℚ)) (cat : String) (amt : ℚ) :
    List (String × ℚ) :=
  match acc with
  | [] => [(cat, amt)]
  | (k, v) :: rest =>
    if k = cat then (k, v + amt) :: rest
    else (k, v) :: insertAdd rest cat amt

/-- `monthlyEntries.filter(e => e.type === 'expense').reduce((acc, e) => ..., {})`
(App.js lines 76-81): the per-category expense sums of the selected month. -/
def categoryBreakdown (entries : List Entry) (sel : Ym) : List (String × ℚ) :=
  ((monthlyEntries entries sel).filter (fun e => e.etype == EType.expense)).foldl
    (fun acc e => insertAdd acc e.category e.amount) []

/-- Reading `acc[c] || 0` from the breakdown object: the value stored at
key `c`, or `0` when the key is absent. -/
def lookupQ (m : List (String × ℚ)) (c : String) : ℚ :=
  match m with
  | [] => 0
  | (k, v) :: rest => if k = c then v else lookupQ rest c

/-! ### Basic fold and breakdown lemmas -/

theorem foldl_add_amount (l : List Entry) (s : ℚ) :
    l.foldl (fun sum e => sum + e.amount) s = s + (l.map Entry.amount).sum := by
  induction l generalizing s with
  | nil => simp
  | cons e rest ih =>
    simp only [List.foldl_cons, List.map_cons, List.sum_cons, ih]
    ring

theorem snd_sum_insertAdd (acc : List (String × ℚ)) (cat : String) (amt : ℚ) :
    ((insertAdd acc cat amt).map Prod.snd).sum = (acc.map Prod.snd).sum + amt := by
  induction acc with
  | nil => simp [insertAdd]
  | cons p rest ih =>
    obtain ⟨k, v⟩ := p
    by_cases h : k = cat
    · simp [insertAdd, h]
      ring
    · simp [insertAdd, h, ih]
      ring

theorem snd_sum_breakdown_fold (es : List Entry) (acc : List (String × ℚ)) :
    ((es.foldl (fun acc e => insertAdd acc e.category e.amount) acc).map Prod.snd).sum
      = (acc.map Prod.snd).sum + (es.map Entry.amount).sum := by
  induction es generalizing acc with
  | nil => simp
  | cons e rest ih =>
    simp only [List.foldl_cons, List.map_cons, List.sum_cons, ih, snd_sum_insertAdd]
    ring

theorem lookupQ_insertAdd (acc : List (String × ℚ)) (cat c : String) (amt : ℚ) :
    lookupQ (insertAdd acc cat amt) c
      = lookupQ acc c + (if cat = c then amt else 0) := by
  induction acc with
  | nil =>
    by_cases h : cat = c <;> simp [insertAdd, lookupQ, h]
  | cons p rest ih =>
    obtain ⟨k, v⟩ := p
    by_cases hk : k = cat
    · subst hk
      by_cases hc : k = c
      · simp [insertAdd, lookupQ, hc]
      · simp [insertAdd, lookupQ, hc]
    · by_cases hc : k = c
      · subst hc
        have : ¬ cat = k := fun h => hk h.symm
        simp [insertAdd, lookupQ, hk, this]
      · simp [insertAdd, lookupQ, hk, hc, ih]

theorem lookupQ_breakdown_fold (es : List Entry) (acc : List (String × ℚ)) (c : String) :
    lookupQ (es.foldl (fun acc e => insertAdd acc e.category e.amount) acc) c
      = lookupQ acc c
        + (es.map (fun e => if e.category = c then e.amount else 0)).sum := by
  induction es generalizing acc with
  | nil => simp
  | cons e rest ih =>
    simp only [List.foldl_cons, List.map_cons, List.sum_cons, ih, lookupQ_insertAdd]
    ring

/-- The value the breakdown stores for category `c`: the sum of the
month's expense amounts in that category. -/
theorem lookupQ_categoryBreakdown (entries : List Entry) (sel : Ym) (c : String) :
    lookupQ (categoryBreakdown entries sel) c
      = (((monthlyEntries entries sel).filter (fun e => e.etype == EType.expense)).map
          (fun e => if e.category = c then e.amount else 0)).sum := by
  simp [categoryBreakdown, lookupQ_breakdown_fold, lookupQ]

/-! ### Trend series (App.js lines 95-142)

The loop runs `i = 5 .. 0`; each iteration takes `new Date()` (the
current real-world date), applies `date.setMonth(date.getMonth() - i)`,
and sums the entries of the resulting date's month.  ECMAScript
`setMonth` keeps the day of month and normalizes an out-of-range day by
rolling it into the following month (e.g. setting a March 31 date to
February yields "February 31" = March 2 or 3). -/

/-- Gregorian leap-year test, as ECMAScript time arithmetic uses. -/
def isLeap (y : Int) : Bool :=
  (y.emod 4 == 0 && y.emod 100 != 0) || y.emod 400 == 0

/-- Number of days of month `m` (1-12) of year `y`. -/
def daysInMonth (y : Int) (m : Nat) : Nat :=
  if m == 2 then (if isLeap y then 29 else 28)
  else if m == 4 || m == 6 || m == 9 || m == 11 then 30
  else 31

/-- `const date = new Date(); date.setMonth(date.getMonth() - i)`:
shift `today` back `i` months keeping the day of month, then resolve a
day past the end of the target month by rolling into the next month, as
ECMAScript `Date` normalization does. -/
def setMonthMinus (today : Dt) (i : Nat) : Dt :=
  let t : Int := today.year * 12 + (today.month : Int) - 1 - (i : Int)
  let y : Int := t.fdiv 12
  let m : Nat := (t.fmod 12).toNat + 1
  if today.day > daysInMonth y m then
    let t2 : Int := t + 1
    ⟨t2.fdiv 12, (t2.fmod 12).toNat + 1, today.day - daysInMonth y m⟩
  else
    ⟨y, m, today.day⟩

/-- The six dates the chart loop visits, in push order
(`i = 5` first, `i = 0` last). -/
def lineChartMonths (today : Dt) : List Dt :=
  (List.range 6).map (fun j => setMonthMinus today (5 - j))

/-- `monthEntries.filter(income).reduce(...)` per visited month:
the `incomeData` array (App.js lines 111-113, 119). -/
def incomeData (entries : List Entry) (today : Dt) : List ℚ :=
  (lineChartMonths today).map (fun d =>
    ((entries.filter (fun e => isSameMonth e.date d)).filter
        (fun e => e.etype == EType.income)).foldl (fun sum e => sum + e.amount) 0)

/-- The `expenseData` array (App.js lines 115-117, 120). -/
def expenseData (entries : List Entry) (today : Dt) : List ℚ :=
  (lineChartMonths today).map (fun d =>
    ((entries.filter (fun e => isSameMonth e.date d)).filter
        (fun e => e.etype == EType.expense)).foldl (fun sum e => sum + e.amount) 0)

/-- English month abbreviation, as `format(date, 'MMM yyyy')` uses. -/
def monthAbbrev (m : Nat) : String :=
  match m with
  | 1 => "Jan"
  | 2 => "Feb"
  | 3 => "Mar"
  | 4 => "Apr"
  | 5 => "May"
  | 6 => "Jun"
  | 7 => "Jul"
  | 8 => "Aug"
  | 9 => "Sep"
  | 10 => "Oct"
  | 11 => "Nov"
  | _ => "Dec"

/-- The `months` label array: `format(date, 'MMM yyyy')` for each
visited date (App.js line 105). -/
def lineChartLabels (today : Dt) : List String :=
  (lineChartMonths today).map (fun d => monthAbbrev d.month ++ " " ++ toString d.year)

/-- The six year-months the spec describes: the six calendar months
ending at the current real-world month, oldest first, by pure
year-month arithmetic (no day involved).  This follows the spec's words
and is the comparison target for the code's `lineChartMonths`. -/
def specSixMonths (today : Dt) : List Ym :=
  (List.range 6).map (fun j =>
    let t : Int := today.year * 12 + (today.month : Int) - 1 - ((5 - j : Nat) : Int)
    ⟨t.fdiv 12, (t.fmod 12).toNat + 1⟩)

/-! ### Entry store (App.js lines 172-216)

The form state `currentEntry` holds string fields.  The amount field is
an HTML number input, so its value is either the empty string or a
numeric string; we model it as `Option ℚ` (`none` = empty field, which
is the only falsy string a number input can hold other than none, since
`"0"` is truthy).  The guard on line 174 is
`if (!currentEntry.amount || !currentEntry.category) return;`. -/

/-- The form draft `currentEntry` (App.js lines 18-24). -/
structure Draft where
  etype : EType
  amount : Option ℚ
  category : String
  description : String
  date : Dt
deriving DecidableEq

/-- The line-174 guard passes: the amount field is non-empty and the
category string is truthy (non-empty). -/
def validDraft (d : Draft) : Bool :=
  d.amount.isSome && d.category != ""

/-- `parseFloat(x).toFixed(2)` read back as a number: rounding to two
decimal places (half up, as `toFixed` does for ordinary inputs). -/
def roundTwo (q : ℚ) : ℚ :=
  ((round (q * 100) : ℤ) : ℚ) / 100

/-- The entry object built on App.js lines 176-180 with the given id:
`{ id, ...currentEntry, amount: parseFloat(currentEntry.amount).toFixed(2) }`
(the guard guarantees the amount field is present; `.getD 0` is the
unreachable missing-amount case). -/
def mkEntry (eid : String) (d : Draft) : Entry :=
  { id := eid
    etype := d.etype
    amount := roundTwo (d.amount.getD 0)
    category := d.category
    description := d.description
    date := d.date }

/-- `handleSubmit` (App.js lines 172-196), restricted to its effect on
`entries`.  `editing` is the `editingId` state (`null` or a string) and
`now` the value of `Date.now()`.  Line 177 computes
`id: editingId || Date.now().toString()` and line 182 branches on
`if (editingId)`; both treat the empty string as falsy, so a submit
whose `editingId` is `""` takes the append path with a timestamp id. -/
def handleSubmit (entries : List Entry) (editing : Option String) (d : Draft)
    (now : Nat) : List Entry :=
  if validDraft d = false then entries
  else
    match editing with
    | some eid =>
      if eid = "" then entries ++ [mkEntry (toString now) d]
      else entries.map (fun e => if e.id = eid then mkEntry eid d else e)
    | none => entries ++ [mkEntry (toString now) d]

/-- `handleDelete` (App.js lines 203-205):
`setEntries(prev => prev.filter(e => e.id !== id))`. -/
def handleDelete (entries : List Entry) (eid : String) : List Entry :=
  entries.filter (fun e => e.id ≠ eid)

/-- One user action on the ledger: a form submit (an add when
`editing = none`, an update when `editing = some eid`) or a delete. -/
inductive Op where
  | submit (editing : Option String) (d : Draft) (now : Nat)
  | del (eid : String)
deriving DecidableEq

/-- Apply one action to the ledger. -/
def applyOp (entries : List Entry) : Op → List Entry
  | Op.submit editing d now => handleSubmit entries editing d now
  | Op.del eid => handleDelete entries eid

/-- Run a sequence of actions from the empty ledger (`useState([])`). -/
def runOps (ops : List Op) : List Entry :=
  ops.foldl applyOp []

/-- Whether a submit takes the append path (line 182's `if (editingId)`
is false): `editingId` is `null` or the empty string. -/
def appendsNew (editing : Option String) : Bool :=
  match editing with
  | none => true
  | some t => t = ""

/-- A single action is id-fresh for the current ledger: whenever it
appends a new entry, the timestamp string it would assign is not already
an id in the ledger. -/
def opFresh (entries : List Entry) : Op → Bool
  | Op.submit editing d now =>
    if validDraft d && appendsNew editing then
      entries.all (fun e => e.id ≠ toString now)
    else true
  | Op.del _ => true

/-- Every action of the run is id-fresh at the moment it executes. -/
def freshRun (entries : List Entry) : List Op → Bool
  | [] => true
  | op :: ops => opFresh entries op && freshRun (applyOp entries op) ops

/-! ### Persisted-state load (App.js lines 29-34)

The mount effect runs
`const saved = localStorage.getItem(STORAGE_KEY); if (saved) { setEntries(JSON.parse(saved)); }`.
`getItem` yields `null` (absent) or the stored string; the empty string
is falsy and skips the branch.  `JSON.parse` is modelled by an exact
JSON (ECMA-404) parser below; on malformed input it throws a
`SyntaxError`, and nothing in the effect catches it.  On success the
parsed value — whatever its shape — is installed as `entries` with no
validation. -/

/-- A parsed JSON value. -/
inductive Json where
  | null
  | bool (b : Bool)
  | num (q : ℚ)
  | str (s : String)
  | arr (elems : List Json)
  | obj (members : List (String × Json))

/-- Drop leading JSON whitespace (space, tab, line feed, carriage return). -/
def skipWs : List Char → List Char
  | [] => []
  | c :: cs =>
    if c = ' ' || c = '\t' || c = '\n' || c = '\x0d' then skipWs cs else c :: cs

/-- Value of a hexadecimal digit, if the character is one. -/
def hexDigit? (c : Char) : Option Nat :=
  if '0' ≤ c ∧ c ≤ '9' then some (c.toNat - 48)
  else if 'a' ≤ c ∧ c ≤ 'f' then some (c.toNat - 87)
  else if 'A' ≤ c ∧ c ≤ 'F' then some (c.toNat - 55)
  else none

/-- Parse the body of a JSON string (after the opening quote), handling
the escape sequences of ECMA-404; `acc` holds the characters read so
far, reversed. -/
def strBody (acc : List Char) : List Char → Option (String × List Char)
  | [] => none
  | c :: cs =>
    if c = '"' then some (String.mk acc.reverse, cs)
    else if c = '\\' then
      match cs with
      | [] => none
      | e :: cs2 =>
        if e = '"' then strBody ('"' :: acc) cs2
        else if e = '\\' then strBody ('\\' :: acc) cs2
        else if e = '/' then strBody ('/' :: acc) cs2
        else if e = 'b' then strBody (Char.ofNat 8 :: acc) cs2
        else if e = 'f' then strBody (Char.ofNat 12 :: acc) cs2
        else if e = 'n' then strBody ('\n' :: acc) cs2
        else if e = 'r' then strBody (Char.ofNat 13 :: acc) cs2
        else if e = 't' then strBody ('\t' :: acc) cs2
        else if e = 'u' then
          match cs2 with
          | h1 :: h2 :: h3 :: h4 :: cs3 =>
            match hexDigit? h1, hexDigit? h2, hexDigit? h3, hexDigit? h4 with
            | some x, some y, some z, some w =>
              strBody (Char.ofNat (4096 * x + 256 * y + 16 * z + w) :: acc) cs3
            | _, _, _, _ => none
          | _ => none
        else none
    else if c.toNat < 32 then none
    else strBody (c :: acc) cs

/-- Decimal value of a digit character. -/
def digitVal (c : Char) : Nat := c.toNat - 48

/-- Split off a maximal run of decimal digits. -/
def takeDigits (cs : List Char) : List Char × List Char :=
  cs.span (fun c => c.isDigit)

/-- Natural number denoted by a digit run. -/
def digitsNat (ds : List Char) : Nat :=
  ds.foldl (fun n c => 10 * n + digitVal c) 0

/-- Parse a JSON number (ECMA-404 grammar: optional minus, integer part
with no leading zero, optional fraction, optional exponent) into an
exact rational. -/
def parseNum (cs : List Char) : Option (ℚ × List Char) :=
  let signed : Bool × List Char :=
    match cs with
    | '-' :: r => (true, r)
    | _ => (false, cs)
  let neg := signed.1
  let ipart? : Option (Nat × List Char) :=
    match signed.2 with
    | '0' :: r => some (0, r)
    | c :: r =>
      if c.isDigit then
        let split := takeDigits r
        some (digitsNat (c :: split.1), split.2)
      else none
    | [] => none
  match ipart? with
  | none => none
  | some (ip, cs2) =>
    let frac? : Option (ℚ × List Char) :=
      match cs2 with
      | '.' :: r =>
        match takeDigits r with
        | ([], _) => none
        | (ds, r2) => some ((digitsNat ds : ℚ) / ((10 : ℚ) ^ ds.length), r2)
      | _ => some (0, cs2)
    match frac? with
    | none => none
    | some (fq, cs3) =>
      let exp? : Option (Int × List Char) :=
        match cs3 with
        | 'e' :: r | 'E' :: r =>
          let esigned : Bool × List Char :=
            match r with
            | '+' :: t => (false, t)
            | '-' :: t => (true, t)
            | _ => (false, r)
          match takeDigits esigned.2 with
          | ([], _) => none
          | (ds, r2) =>
            some ((if esigned.1 then -(digitsNat ds : Int) else (digitsNat ds : Int)), r2)
        | _ => some (0, cs3)
      match exp? with
      | none => none
      | some (ex, cs4) =>
        let mag : ℚ := ((ip : ℚ) + fq) * (10 : ℚ) ^ ex
        some ((if neg then -mag else mag), cs4)

mutual

/-- Parse one JSON value; `fuel` bounds the nesting work. -/
def parseVal (fuel : Nat) (cs : List Char) : Option (Json × List Char) :=
  match fuel with
  | 0 => none
  | fuel2 + 1 =>
    match skipWs cs with
    | [] => none
    | 'n' :: 'u' :: 'l' :: 'l' :: r => some (Json.null, r)
    | 't' :: 'r' :: 'u' :: 'e' :: r => some (Json.bool true, r)
    | 'f' :: 'a' :: 'l' :: 's' :: 'e' :: r => some (Json.bool false, r)
    | '"' :: r =>
      match strBody [] r with
      | some (s, r2) => some (Json.str s, r2)
      | none => none
    | '[' :: r =>
      (match skipWs r with
       | ']' :: r2 => some (Json.arr [], r2)
       | _ =>
         match parseElems fuel2 r with
         | some (xs, r2) => some (Json.arr xs, r2)
         | none => none)
    | '\x7b' :: r =>
      (match skipWs r with
       | '\x7d' :: r2 => some (Json.obj [], r2)
       | _ =>
         match parseMembers fuel2 r with
         | some (ms, r2) => some (Json.obj ms, r2)
         | none => none)
    | c :: r =>
      if c == '-' || c.isDigit then
        match parseNum (c :: r) with
        | some (q, r2) => some (Json.num q, r2)
        | none => none
      else none

/-- Parse the comma-separated elements of a non-empty JSON array, up to
and including the closing bracket. -/
def parseElems (fuel : Nat) (cs : List Char) : Option (List Json × List Char) :=
  match fuel with
  | 0 => none
  | fuel2 + 1 =>
    match parseVal fuel2 cs with
    | none => none
    | some (x, r) =>
      match skipWs r with
      | ',' :: r2 =>
        (match parseElems fuel2 r2 with
         | some (xs, r3) => some (x :: xs, r3)
         | none => none)
      | ']' :: r2 => some ([x], r2)
      | _ => none

/-- Parse the members of a non-empty JSON object, up to and including
the closing brace. -/
def parseMembers (fuel : Nat) (cs : List Char) :
    Option (List (String × Json) × List Char) :=
  match fuel with
  | 0 => none
  | fuel2 + 1 =>
    match skipWs cs with
    | '"' :: r =>
      (match strBody [] r with
       | none => none
       | some (k, r2) =>
         match skipWs r2 with
         | ':' :: r3 =>
           (match parseVal fuel2 r3 with
            | none => none
            | some (v, r4) =>
              match skipWs r4 with
              | ',' :: r5 =>
                (match parseMembers fuel2 r5 with
                 | some (ms, r6) => some ((k, v) :: ms, r6)
                 | none => none)
              | '\x7d' :: r5 => some ([(k, v)], r5)
              | _ => none)
         | _ => none)
    | _ => none

end

/-- `JSON.parse`: parse the whole string as one JSON value (leading and
trailing whitespace allowed); `none` models a thrown `SyntaxError`. -/
def jsonParse (s : String) : Option Json :=
  match parseVal (2 * s.length + 2) s.toList with
  | some (j, r) => if (skipWs r).isEmpty then some j else none
  | none => none

/-- The mount-time load (App.js lines 29-34) as a function of the stored
blob.  The result is the value held by `entries` after mount
(`Json.arr []` is the untouched `useState([])` initial state), or
`Except.error` when the uncaught `JSON.parse` exception escapes the
effect.  A successful parse is installed unvalidated, whatever its
shape. -/
def loadEntries (blob : Option String) : Except String Json :=
  match blob with
  | none => Except.ok (Json.arr [])
  | some s =>
    if s = "" then Except.ok (Json.arr [])
    else
      match jsonParse s with
      | some j => Except.ok j
      | none => Except.error "SyntaxError: Unexpected token in JSON"

/-! ### Concrete sample data for witnesses and counterexamples -/

/-- A valid income draft (amount field "1.00", category Salary). -/
def demoDraft : Draft := ⟨EType.income, some 1, "Salary", "", ⟨2024, 1, 5⟩⟩

/-- A valid expense draft (amount field "200.50", category Food). -/
def demoExpenseDraft : Draft := ⟨EType.expense, some (401 / 2), "Food", "lunch", ⟨2024, 1, 10⟩⟩

/-- A draft whose amount field is empty. -/
def emptyDraft : Draft := ⟨EType.expense, none, "Food", "", ⟨2024, 1, 1⟩⟩

/-- A sample stored entry whose id is the string "5". -/
def demoEntry : Entry := ⟨"5", EType.income, 1000, "Salary", "", ⟨2024, 1, 5⟩⟩

/-- A second sample stored entry. -/
def demoEntry2 : Entry := ⟨"6", EType.expense, 200, "Food", "", ⟨2024, 1, 10⟩⟩

/-- A sample selected month. -/
def demoSel : Ym := ⟨2024, 1⟩

/-! ### Claim theorems -/

/-- C1: for every ledger and selected month, the sum of the values of the
category breakdown equals the monthly expense total of that month. -/
theorem categoryBreakdown_values_sum_eq_monthlyExpenses
    (entries : List Entry) (sel : Ym) :
    ((categoryBreakdown entries sel).map Prod.snd).sum
      = monthlyExpenses entries sel := by
  simp [categoryBreakdown, monthlyExpenses, snd_sum_breakdown_fold, foldl_add_amount]

/-- C3: for every ledger, the balance equals the all-time income sum minus
the all-time expense sum, where the totals are exactly the sums of the
amounts of the income-typed resp. expense-typed entries of the whole
ledger (unscoped by month). -/
theorem balance_eq_totalIncome_sub_totalExpenses (entries : List Entry) :
    balance entries = totalIncome entries - totalExpenses entries
    ∧ totalIncome entries
        = ((entries.filter (fun e => e.etype == EType.income)).map Entry.amount).sum
    ∧ totalExpenses entries
        = ((entries.filter (fun e => e.etype == EType.expense)).map Entry.amount).sum := by
  refine ⟨rfl, ?_, ?_⟩ <;> simp [totalIncome, totalExpenses, foldl_add_amount]

/-- C4: permuting the ledger leaves every aggregate unchanged: the
all-time totals, the balance, the monthly totals, and every category's
breakdown sum. -/
theorem aggregates_perm_invariant (l l' : List Entry) (sel : Ym)
    (h : l.Perm l') :
    totalIncome l = totalIncome l'
    ∧ totalExpenses l = totalExpenses l'
    ∧ balance l = balance l'
    ∧ monthlyIncome l sel = monthlyIncome l' sel
    ∧ monthlyExpenses l sel = monthlyExpenses l' sel
    ∧ ∀ c, lookupQ (categoryBreakdown l sel) c
        = lookupQ (categoryBreakdown l' sel) c := by
  have hm : (monthlyEntries l sel).Perm (monthlyEntries l' sel) := h.filter _
  have hti : totalIncome l = totalIncome l' := by
    simp only [totalIncome, foldl_add_amount, zero_add]
    exact ((h.filter _).map _).sum_eq
  have hte : totalExpenses l = totalExpenses l' := by
    simp only [totalExpenses, foldl_add_amount, zero_add]
    exact ((h.filter _).map _).sum_eq
  refine ⟨hti, hte, ?_, ?_, ?_, ?_⟩
  · simp [balance, hti, hte]
  · simp only [monthlyIncome, foldl_add_amount, zero_add]
    exact ((hm.filter _).map _).sum_eq
  · simp only [monthlyExpenses, foldl_add_amount, zero_add]
    exact ((hm.filter _).map _).sum_eq
  · intro c
    rw [lookupQ_categoryBreakdown, lookupQ_categoryBreakdown]
    exact ((hm.filter _).map _).sum_eq

/-- Witness for C4 at a concrete two-entry ledger and its swap. -/
theorem aggregates_perm_invariant_witness :
    totalIncome [demoEntry, demoEntry2] = totalIncome [demoEntry2, demoEntry] :=
  (aggregates_perm_invariant [demoEntry, demoEntry2] [demoEntry2, demoEntry]
    demoSel (List.Perm.swap demoEntry2 demoEntry [])).1

/-- C2: on a current real-world date at the end of a month, the chart
loop's `setMonth(getMonth() - i)` overflows the day of month and skips
months: on 2024-03-31 the visited months are Oct 2023, Dec 2023,
Dec 2023, Jan 2024, Mar 2024, Mar 2024 (with labels to match), not the
six calendar months Oct 2023 .. Mar 2024 the spec describes. -/
theorem lineChartMonths_wrong_at_month_end :
    (lineChartMonths ⟨2024, 3, 31⟩).map (fun d => (d.year, d.month))
      = [(2023, 10), (2023, 12), (2023, 12), (2024, 1), (2024, 3), (2024, 3)]
    ∧ (specSixMonths ⟨2024, 3, 31⟩).map (fun m => (m.year, m.month))
      = [(2023, 10), (2023, 11), (2023, 12), (2024, 1), (2024, 2), (2024, 3)]
    ∧ lineChartLabels ⟨2024, 3, 31⟩
      = ["Oct 2023", "Dec 2023", "Dec 2023", "Jan 2024", "Mar 2024", "Mar 2024"]
    ∧ (lineChartMonths ⟨2024, 3, 31⟩).map (fun d => (d.year, d.month))
      ≠ (specSixMonths ⟨2024, 3, 31⟩).map (fun m => (m.year, m.month)) := by
  refine ⟨by decide, by decide, by decide, by decide⟩

/-- On days of month up to 28 no overflow happens and the loop visits
exactly the six months the spec describes, oldest first. -/
theorem lineChartMonths_eq_spec_of_day_le_28 (today : Dt) (h : today.day ≤ 28) :
    (lineChartMonths today).map (fun d => (d.year, d.month))
      = (specSixMonths today).map (fun m => (m.year, m.month)) := by
  have hdim : ∀ (y : Int) (m : Nat), 28 ≤ daysInMonth y m := by
    intro y m
    unfold daysInMonth
    split_ifs <;> omega
  have hpt : ∀ i : Nat, ((setMonthMinus today i).year, (setMonthMinus today i).month)
      = (let t : Int := today.year * 12 + (today.month : Int) - 1 - (i : Int)
         (t.fdiv 12, (t.fmod 12).toNat + 1)) := by
    intro i
    unfold setMonthMinus
    have hno : ¬ (today.day > daysInMonth
        ((today.year * 12 + (today.month : Int) - 1 - (i : Int)).fdiv 12)
        (((today.year * 12 + (today.month : Int) - 1 - (i : Int)).fmod 12).toNat + 1)) := by
      have := hdim ((today.year * 12 + (today.month : Int) - 1 - (i : Int)).fdiv 12)
        (((today.year * 12 + (today.month : Int) - 1 - (i : Int)).fmod 12).toNat + 1)
      omega
    simp only [hno, if_false]
  unfold lineChartMonths specSixMonths
  simp only [List.map_map, Function.comp]
  apply List.map_congr_left
  intro j hj
  exact hpt (5 - j)

/-- C5 counterexample: a malformed persisted blob is not treated as an
empty ledger — the uncaught `JSON.parse` exception escapes the mount
effect. -/
theorem loadEntries_malformed_raises :
    loadEntries (some "x") = Except.error "SyntaxError: Unexpected token in JSON" := by
  rfl

/-- C5 (amended): only an absent or empty blob is tolerated: then the
ledger stays empty and no error occurs.  (A malformed blob instead
raises, as `loadEntries_malformed_raises` shows, and a well-formed blob
is installed without any shape validation.) -/
theorem loadEntries_absent_or_empty_ok (blob : Option String)
    (h : blob = none ∨ blob = some "") :
    loadEntries blob = Except.ok (Json.arr []) := by
  rcases h with h | h <;> subst h <;> rfl

/-- Witness for the amended C5 at the absent blob. -/
theorem loadEntries_absent_or_empty_ok_witness :
    loadEntries none = Except.ok (Json.arr []) :=
  loadEntries_absent_or_empty_ok none (Or.inl rfl)

/-- C6: a submit whose amount field or category field is empty aborts
silently: the ledger is unchanged, whatever the editing state. -/
theorem handleSubmit_invalid_aborts (entries : List Entry)
    (editing : Option String) (d : Draft) (now : Nat)
    (h : d.amount = none ∨ d.category = "") :
    handleSubmit entries editing d now = entries := by
  have hv : validDraft d = false := by
    rcases h with h | h <;> simp [validDraft, h]
  simp [handleSubmit, hv]

/-- Witness for C6 at an empty amount field. -/
theorem handleSubmit_invalid_aborts_witness :
    handleSubmit [demoEntry] none emptyDraft 0 = [demoEntry] :=
  handleSubmit_invalid_aborts [demoEntry] none emptyDraft 0 (Or.inl rfl)

/-! ### Id uniqueness (C7) -/

/-- Replacing the entries matching `eid` in place does not change the
list of ids. -/
theorem ids_map_update (l : List Entry) (eid : String) (d : Draft) :
    ((l.map (fun e => if e.id = eid then mkEntry eid d else e)).map Entry.id)
      = l.map Entry.id := by
  rw [List.map_map]
  apply List.map_congr_left
  intro a ha
  by_cases h : a.id = eid
  · simp [Function.comp, h, mkEntry]
  · simp [Function.comp, h]

/-- Appending a freshly-identified entry preserves id uniqueness. -/
theorem nodup_ids_append (l : List Entry) (d : Draft) (now : Nat)
    (hn : (l.map Entry.id).Nodup) (hfresh : ∀ e ∈ l, e.id ≠ toString now) :
    ((l ++ [mkEntry (toString now) d]).map Entry.id).Nodup := by
  simp only [List.map_append, List.map_cons, List.map_nil]
  refine List.Nodup.append hn (List.nodup_singleton _) ?_
  intro a ha hb
  simp only [mkEntry, List.mem_singleton] at hb
  subst hb
  obtain ⟨e, he, heid⟩ := List.mem_map.mp ha
  exact hfresh e he heid

/-- One id-fresh action preserves id uniqueness. -/
theorem nodup_ids_applyOp (l : List Entry) (op : Op)
    (hn : (l.map Entry.id).Nodup) (hf : opFresh l op = true) :
    ((applyOp l op).map Entry.id).Nodup := by
  cases op with
  | del eid =>
    exact List.Nodup.sublist (List.Sublist.map Entry.id (List.filter_sublist l)) hn
  | submit editing d now =>
    by_cases hv : validDraft d = true
    · cases editing with
      | none =>
        have hfresh : ∀ e ∈ l, e.id ≠ toString now := by
          simpa [opFresh, appendsNew, hv, List.all_eq_true] using hf
        simpa [applyOp, handleSubmit, hv] using nodup_ids_append l d now hn hfresh
      | some eid =>
        by_cases he : eid = ""
        · have hfresh : ∀ e ∈ l, e.id ≠ toString now := by
            simpa [opFresh, appendsNew, hv, he, List.all_eq_true] using hf
          simpa [applyOp, handleSubmit, hv, he] using nodup_ids_append l d now hn hfresh
        · have hred : applyOp l (Op.submit (some eid) d now)
              = l.map (fun e => if e.id = eid then mkEntry eid d else e) := by
            simp [applyOp, handleSubmit, hv, he]
          rw [hred, ids_map_update]
          exact hn
    · have hv2 : validDraft d = false := by
        cases hvd : validDraft d with
        | true => exact absurd hvd hv
        | false => rfl
      simpa [applyOp, handleSubmit, hv2] using hn

/-- Id uniqueness is preserved along any id-fresh run. -/
theorem nodup_ids_runFold (ops : List Op) (l : List Entry)
    (hn : (l.map Entry.id).Nodup) (hf : freshRun l ops = true) :
    ((ops.foldl applyOp l).map Entry.id).Nodup := by
  induction ops generalizing l with
  | nil => simpa using hn
  | cons op rest ih =>
    simp only [freshRun, Bool.and_eq_true] at hf
    simp only [List.foldl_cons]
    exact ih (applyOp l op) (nodup_ids_applyOp l op hn hf.1) hf.2

/-- C7 (amended): every ledger reachable from the empty ledger by adds,
updates and deletes has pairwise distinct ids, provided every append
happens at a timestamp whose string is not already an id of the ledger
(in particular whenever `Date.now()` strictly increases between adds). -/
theorem runOps_ids_nodup_of_fresh (ops : List Op)
    (hf : freshRun [] ops = true) :
    ((runOps ops).map Entry.id).Nodup :=
  nodup_ids_runFold ops [] (by simp) hf

/-- Witness for the amended C7: two adds at distinct timestamps and a
delete keep the ids distinct. -/
theorem runOps_ids_nodup_of_fresh_witness :
    ((runOps [Op.submit none demoDraft 5, Op.submit none demoExpenseDraft 6,
        Op.del "5"]).map Entry.id).Nodup :=
  runOps_ids_nodup_of_fresh
    [Op.submit none demoDraft 5, Op.submit none demoExpenseDraft 6, Op.del "5"]
    (by decide)

/-- C7 counterexample: two adds in the same `Date.now()` millisecond
produce two entries with the same id — the reachable-state invariant
fails without the freshness proviso. -/
theorem runOps_ids_dup_on_colliding_adds :
    ¬ ((runOps [Op.submit none demoDraft 5, Op.submit none demoDraft 5]).map
        Entry.id).Nodup := by
  decide

/-- C8 (amended): adding an entry and then deleting its assigned id
restores the ledger exactly, provided that id (the `Date.now()` string)
does not already occur in the ledger. -/
theorem add_then_remove_restores (l : List Entry) (d : Draft) (now : Nat)
    (h : ∀ e ∈ l, e.id ≠ toString now) :
    handleDelete (handleSubmit l none d now) (toString now) = l := by
  have hself : l.filter (fun e => e.id ≠ toString now) = l :=
    List.filter_eq_self.mpr (fun e he => by simpa using h e he)
  by_cases hv : validDraft d = true
  · have hs : handleSubmit l none d now = l ++ [mkEntry (toString now) d] := by
      simp [handleSubmit, hv]
    rw [hs, handleDelete, List.filter_append, hself]
    simp [mkEntry]
  · have hv2 : validDraft d = false := by
      cases hvd : validDraft d with
      | true => exact absurd hvd hv
      | false => rfl
    have hs : handleSubmit l none d now = l := by
      simp [handleSubmit, hv2]
    rw [hs, handleDelete, hself]

/-- Witness for the amended C8: add to a ledger with a different id,
then delete the assigned id. -/
theorem add_then_remove_restores_witness :
    handleDelete (handleSubmit [demoEntry] none demoDraft 7) (toString 7)
      = [demoEntry] :=
  add_then_remove_restores [demoEntry] demoDraft 7 (by decide)

/-- C8 counterexample: when the `Date.now()` string collides with an id
already in the ledger, adding and then deleting the assigned id also
deletes the pre-existing entry — the ledger is not restored. -/
theorem add_then_remove_not_inverse_on_id_collision :
    handleDelete (handleSubmit [demoEntry] none demoDraft 5) (toString 5)
      ≠ [demoEntry] := by
  decide

/-- C9 (amended): for a non-empty edited id and a valid draft, the
update keeps the ledger length, replaces exactly the positions whose
entry matches the id, keeps every other position's entry, and is the
identity when no entry matches (nothing is appended).  For the empty
edited id the code instead takes the append path
(`update_empty_id_appends`). -/
theorem update_replaces_in_place (l : List Entry) (eid : String) (d : Draft)
    (now : Nat) (hne : eid ≠ "") (hv : validDraft d = true) :
    (handleSubmit l (some eid) d now).length = l.length
    ∧ (∀ i, ∀ hi : i < l.length, (l.get ⟨i, hi⟩).id = eid →
        (handleSubmit l (some eid) d now)[i]? = some (mkEntry eid d))
    ∧ (∀ i, ∀ hi : i < l.length, (l.get ⟨i, hi⟩).id ≠ eid →
        (handleSubmit l (some eid) d now)[i]? = some (l.get ⟨i, hi⟩))
    ∧ ((∀ e ∈ l, e.id ≠ eid) → handleSubmit l (some eid) d now = l) := by
  have hs : handleSubmit l (some eid) d now
      = l.map (fun e => if e.id = eid then mkEntry eid d else e) := by
    simp [handleSubmit, hv, hne]
  refine ⟨?_, ?_, ?_, ?_⟩
  · rw [hs, List.length_map]
  · intro i hi hmatch
    rw [hs, List.getElem?_map, List.getElem?_eq_getElem hi]
    simp [List.get_eq_getElem] at hmatch
    simp [hmatch]
  · intro i hi hmiss
    rw [hs, List.getElem?_map, List.getElem?_eq_getElem hi]
    simp [List.get_eq_getElem] at hmiss
    simp [hmiss]
  · intro hnone
    rw [hs]
    have : ∀ e ∈ l, (if e.id = eid then mkEntry eid d else e) = e := by
      intro e he
      simp [hnone e he]
    rw [List.map_congr_left this]
    simp

/-- Witness for the amended C9 at a one-entry ledger and a fresh id. -/
theorem update_replaces_in_place_witness :
    (handleSubmit [demoEntry] (some "a") demoDraft 0).length
      = [demoEntry].length :=
  (update_replaces_in_place [demoEntry] "a" demoDraft 0 (by decide) rfl).1

/-- C9 counterexample: submitting while the edited id is the empty
string does not leave a ledger without that id unchanged — the code's
truthiness test sends it down the append path and a new entry appears. -/
theorem update_empty_id_appends :
    handleSubmit [] (some "") demoDraft 7 ≠ [] := by
  decide

/-- C10: deleting an id removes every entry carrying that id (duplicates
included), keeps exactly the non-matching entries as a subsequence in
their original order, and is a no-op when nothing matches. -/
theorem handleDelete_removes_all_matching (l : List Entry) (eid : String) :
    (∀ e ∈ handleDelete l eid, e.id ≠ eid)
    ∧ (handleDelete l eid).Sublist l
    ∧ (∀ e ∈ l, e.id ≠ eid → e ∈ handleDelete l eid)
    ∧ ((∀ e ∈ l, e.id ≠ eid) → handleDelete l eid = l) := by
  refine ⟨?_, ?_, ?_, ?_⟩
  · intro e he
    have := List.of_mem_filter he
    simpa using this
  · exact List.filter_sublist l
  · intro e he h
    exact List.mem_filter.mpr ⟨he, by simpa using h⟩
  · intro h
    exact List.filter_eq_self.mpr (fun e he => by simpa using h e he)

/-- Witness for C10: deleting an id absent from the ledger changes
nothing. -/
theorem handleDelete_removes_all_matching_witness :
    handleDelete [demoEntry] "7" = [demoEntry] :=
  (handleDelete_removes_all_matching [demoEntry] "7").2.2.2 (by decide)
